import Mathlib

/-!
Verification development for the `mediar` demo-automation repository.

The repository's own source (`src/demo.py`) drives a scripted terminal
automation engine (`codeanim`): it builds a filesystem fixture, types a
scripted command sequence under nested timing policies, records the
session, and post-processes the exported SVG.  The engine itself is a
dependency whose code is not part of the repository source; its data
model and operations (TimingPolicy, merge, resolveDelay, the DelayScope
stack, the dispatcher, and the recording session state machine) are
modelled here from the specification.  The SVG rewrite loop and the
fixture setup are embedded directly from `src/demo.py`.

Durations are modelled in milliseconds as natural numbers.
-/

/-- Modelled from the spec (the TimingPolicy type of the codeanim engine
is not in the repository source): an immutable set of delay rules —
optional per-tap delay, optional end-of-block delay, and per-key
overrides mapping key symbols to durations. -/
structure TimingPolicy where
  tapDelay : Option Nat
  endDelay : Option Nat
  perKeyDelay : List (String × Nat)
  deriving DecidableEq, Repr

/-- Modelled from the spec: key-wise merge of the per-key override maps;
inner entries override outer entries for the same key, non-overlapping
keys from both survive. -/
def mergePerKey (outer inner : List (String × Nat)) : List (String × Nat) :=
  inner ++ outer.filter (fun kv => (List.lookup kv.1 inner).isNone)

/-- Modelled from the spec (`merge(outer, inner)` of the codeanim engine
is not in the repository source): for each scalar field the result is
inner's value if set, else outer's value if set, else unset; the per-key
map merges key-wise with inner winning.  Pure and total. -/
def merge (outer inner : TimingPolicy) : TimingPolicy where
  tapDelay := inner.tapDelay.orElse (fun _ => outer.tapDelay)
  endDelay := inner.endDelay.orElse (fun _ => outer.endDelay)
  perKeyDelay := mergePerKey outer.perKeyDelay inner.perKeyDelay

/-- Delay-resolution phase: after each primitive event, or once at the
end of the whole action. -/
inductive Phase where
  | perEvent
  | atEnd
  deriving DecidableEq, Repr

/-- Modelled from the spec (`resolveDelay(policy, action, phase)` of the
codeanim engine is not in the repository source): in phase `perEvent`,
look up the acting key's symbol in `perKeyDelay`, falling back to
`tapDelay`, falling back to zero; in phase `atEnd`, return `endDelay` or
zero. -/
def resolveDelay (p : TimingPolicy) (sym : String) (phase : Phase) : Nat :=
  match phase with
  | .perEvent =>
    match List.lookup sym p.perKeyDelay with
    | some d => d
    | none => p.tapDelay.getD 0
  | .atEnd => p.endDelay.getD 0

/-- The empty policy: nothing set. -/
def TimingPolicy.empty : TimingPolicy := ⟨none, none, []⟩

/-- Modelled from the spec: the DelayScope stack is an ordered stack of
policies, innermost first in this representation. -/
abbrev ScopeStack := List TimingPolicy

/-- Modelled from the spec: opening a timing block pushes its policy. -/
def ScopeStack.push (p : TimingPolicy) (s : ScopeStack) : ScopeStack := p :: s

/-- Modelled from the spec: leaving a timing block pops the innermost
policy. -/
def ScopeStack.pop : ScopeStack → ScopeStack
  | [] => []
  | _ :: rest => rest

/-- Modelled from the spec: the effective policy is the field-wise merge
of the stack from outermost to innermost, innermost non-null field
winning. -/
def ScopeStack.current : ScopeStack → TimingPolicy
  | [] => TimingPolicy.empty
  | p :: rest => merge (ScopeStack.current rest) p

-- Basic merge lemmas ---------------------------------------------------

theorem lookup_append_eq (k : String) (l₁ l₂ : List (String × Nat)) :
    List.lookup k (l₁ ++ l₂) =
      (List.lookup k l₁).orElse (fun _ => List.lookup k l₂) := by
  induction l₁ with
  | nil => simp [List.lookup]
  | cons kv rest ih =>
    by_cases h : k = kv.1
    · simp [List.lookup, h]
    · have hb : (k == kv.1) = false := beq_false_of_ne h
      simp [List.lookup, hb, ih]

theorem lookup_filter_of_none (k : String) (inner outer : List (String × Nat))
    (h : List.lookup k inner = none) :
    List.lookup k (outer.filter (fun kv => (List.lookup kv.1 inner).isNone)) =
      List.lookup k outer := by
  induction outer with
  | nil => simp
  | cons kv rest ih =>
    by_cases hk : k = kv.1
    · subst hk
      simp [List.filter, h, List.lookup, ih]
    · have hb : (k == kv.1) = false := beq_false_of_ne hk
      by_cases hp : (List.lookup kv.1 inner).isNone
      · simp [List.filter, hp, List.lookup, hb, ih]
      · simp [List.filter, hp, List.lookup, hb, ih]

theorem lookup_mergePerKey (k : String) (outer inner : List (String × Nat)) :
    List.lookup k (mergePerKey outer inner) =
      (List.lookup k inner).orElse (fun _ => List.lookup k outer) := by
  unfold mergePerKey
  rw [lookup_append_eq]
  cases h : List.lookup k inner with
  | some v => simp [Option.orElse]
  | none => simp [Option.orElse, lookup_filter_of_none k inner outer h]

theorem lookup_isSome_of_mem (kv : String × Nat) (l : List (String × Nat))
    (h : kv ∈ l) : (List.lookup kv.1 l).isSome := by
  induction l with
  | nil => simp at h
  | cons hd rest ih =>
    rcases List.mem_cons.mp h with heq | hm
    · subst heq
      simp [List.lookup]
    · by_cases hk : kv.1 = hd.1
      · simp [List.lookup, hk]
      · have hb : (kv.1 == hd.1) = false := beq_false_of_ne hk
        simp [List.lookup, hb, ih hm]

theorem mergePerKey_eq_self_of_covered (outer inner : List (String × Nat))
    (h : ∀ kv ∈ outer, (List.lookup kv.1 inner).isSome) :
    mergePerKey outer inner = inner := by
  unfold mergePerKey
  have : outer.filter (fun kv => (List.lookup kv.1 inner).isNone) = [] := by
    rw [List.filter_eq_nil_iff]
    intro kv hkv hcon
    have hs := h kv hkv
    rw [Option.isNone_iff_eq_none] at hcon
    rw [hcon] at hs
    simp at hs
  rw [this, List.append_nil]

theorem merge_absorb (outer inner : TimingPolicy) :
    merge outer (merge outer inner) = merge outer inner := by
  cases outer with
  | mk ot oe ok =>
    cases inner with
    | mk it ie ik =>
      unfold merge
      simp only [TimingPolicy.mk.injEq]
      refine ⟨?_, ?_, ?_⟩
      · cases it <;> cases ot <;> rfl
      · cases ie <;> cases oe <;> rfl
      · apply mergePerKey_eq_self_of_covered
        intro kv hkv
        rw [lookup_mergePerKey]
        cases h : List.lookup kv.1 ik with
        | some v => simp [Option.orElse]
        | none =>
          simp only [Option.orElse, h]
          exact lookup_isSome_of_mem kv ok hkv

theorem merge_self (p : TimingPolicy) : merge p p = p := by
  cases p with
  | mk t e k =>
    unfold merge
    simp only [TimingPolicy.mk.injEq]
    refine ⟨?_, ?_, ?_⟩
    · cases t <;> rfl
    · cases e <;> rfl
    · exact mergePerKey_eq_self_of_covered k k
        (fun kv hkv => lookup_isSome_of_mem kv k hkv)

-- Dispatcher model ------------------------------------------------------

/-- A primitive effect of the dispatcher: a synthetic key event, a bulk
text insert, or a timed sleep of a duration in milliseconds. -/
inductive Event where
  | key (sym : String)
  | bulk (text : List Char)
  | wait (d : Nat)
  deriving DecidableEq, Repr

/-- Whether an event is a dispatch call (key or bulk insert), as opposed
to a sleep. -/
def Event.isDispatch : Event → Bool
  | .key _ => true
  | .bulk _ => true
  | .wait _ => false

/-- The sleep durations of a trace, in order. -/
def waits (tr : List Event) : List Nat :=
  tr.filterMap (fun e =>
    match e with
    | .wait d => some d
    | _ => none)

/-- The key symbol of a character, for the per-key lookup. -/
def symOf (c : Char) : String := String.singleton c

/-- An action queued for execution (the spec's Action variant; the name
Act avoids clashing with an unrelated library name): tap a key with
modifiers, type literal text character by character, paste text as one
bulk insert, or an explicit pause. -/
inductive Act where
  | tap (sym : String) (modifiers : List String)
  | write (text : List Char)
  | paste (text : List Char)
  | pause (d : Nat)
  deriving DecidableEq, Repr

/-- Modelled from the spec (the codeanim dispatcher is not in the
repository source): the trace of `Write{text}` — for each character in
order, one key dispatch followed by a sleep of the resolved per-event
delay for that character's symbol, and after the full string one sleep
of the resolved end delay. -/
def writeTrace (p : TimingPolicy) : List Char → List Event
  | [] => [.wait (resolveDelay p "" .atEnd)]
  | c :: cs =>
    .key (symOf c) :: .wait (resolveDelay p (symOf c) .perEvent) :: writeTrace p cs

/-- Modelled from the spec: the trace of one action under an effective
policy.  `Tap` dispatches the chorded event then sleeps the per-event
and end delays; `Write` types character by character; `Paste` dispatches
exactly one bulk insert then sleeps only the end delay; `Pause` sleeps
exactly its duration without consulting the policy. -/
def actionTrace (p : TimingPolicy) : Act → List Event
  | .tap sym _ =>
    [.key sym, .wait (resolveDelay p sym .perEvent), .wait (resolveDelay p "" .atEnd)]
  | .write text => writeTrace p text
  | .paste text => [.bulk text, .wait (resolveDelay p "" .atEnd)]
  | .pause d => [.wait d]

-- Scoped acquisition ----------------------------------------------------

/-- Pushing a whole list of policies in order, first element pushed
first. -/
def ScopeStack.pushAll (ps : List TimingPolicy) (s : ScopeStack) : ScopeStack :=
  ps.foldl (fun acc p => ScopeStack.push p acc) s

/-- Popping n times. -/
def ScopeStack.popN : Nat → ScopeStack → ScopeStack
  | 0, s => s
  | n + 1, s => ScopeStack.pop (ScopeStack.popN n s)

/-- Modelled from the spec: scoped acquisition of a timing block — push
the policy, run the body (which may fail), pop exactly once on every
exit path.  Returns the body's outcome and the stack after exit. -/
def withPolicy {ε α : Type} (p : TimingPolicy) (body : ScopeStack → Except ε α)
    (s : ScopeStack) : Except ε α × ScopeStack :=
  let s2 := ScopeStack.push p s
  (body s2, ScopeStack.pop s2)

-- Recording session state machine --------------------------------------

/-- Modelled from the spec: the recording session state machine
{Idle → Recording → Stopped}; recording handles are opaque tokens,
modelled as naturals. -/
inductive RecState where
  | idle
  | recording (handle : Nat)
  | stopped (handle : Nat)
  deriving DecidableEq, Repr

/-- Session state-machine errors. -/
inductive SessionError where
  | alreadyRecording
  | notRecording
  deriving DecidableEq, Repr

/-- Modelled from the spec: `recordStart` transitions Idle→Recording and
returns a fresh handle; calling it when not Idle is an
`AlreadyRecordingError` (the spec's machine has no edge restarting a
session). -/
def recordStart (fresh : Nat) : RecState → Except SessionError (Nat × RecState)
  | .idle => .ok (fresh, .recording fresh)
  | .recording _ => .error .alreadyRecording
  | .stopped _ => .error .alreadyRecording

/-- Modelled from the spec: `recordStop` errors from Idle
(`NotRecordingError`), and from Recording or Stopped transitions to
Stopped and returns the same handle (idempotent). -/
def recordStop : RecState → Except SessionError (Nat × RecState)
  | .idle => .error .notRecording
  | .recording h => .ok (h, .stopped h)
  | .stopped h => .ok (h, .stopped h)

-- Queue execution -------------------------------------------------------

/-- A dispatch failure, identifying the failing action by its index. -/
structure DispatchError where
  index : Nat
  deriving DecidableEq, Repr

/-- Modelled from the spec: fail-fast queue execution.  `dispatchOk i`
says whether dispatching the i-th action succeeds.  Returns the indices
of the actions whose dispatch was attempted, in order, and the first
error if any; after a failed dispatch no further action is dispatched
and there is no retry. -/
def execQueue (dispatchOk : Nat → Bool) : List Act → Nat → List Nat × Option DispatchError
  | [], _ => ([], none)
  | _ :: rest, i =>
    if dispatchOk i then
      let r := execQueue dispatchOk rest (i + 1)
      (i :: r.1, r.2)
    else
      ([i], some ⟨i⟩)

/-- Modelled from the spec: the queue-execution entry point.  Runs the
queue from index 0; on a dispatch error, attempts `recordStop` during
unwind whenever a recording handle is active, and propagates the error
to the caller. -/
def runQueue (dispatchOk : Nat → Bool) (q : List Act) (rc : RecState) :
    List Nat × RecState × Except DispatchError Unit :=
  let r := execQueue dispatchOk q 0
  match r.2 with
  | none => (r.1, rc, .ok ())
  | some err =>
    match rc with
    | .recording h =>
      match recordStop (.recording h) with
      | .ok (_, s) => (r.1, s, .error err)
      | .error _ => (r.1, .recording h, .error err)
    | s => (r.1, s, .error err)

-- SVG post-processing (embedded from src/demo.py, lines 68-83) ----------

/-- Left-to-right, non-overlapping replacement of every occurrence of
the pattern `p :: ps` by `rep`, as Python's `str.replace` does.  The
fuel argument is bounded by the input length; every step consumes at
least one character, so the fuel never runs out when it starts at the
input's length. -/
def replaceFromFuel (p : Char) (ps rep : List Char) : Nat → List Char → List Char
  | 0, l => l
  | _ + 1, [] => []
  | fuel + 1, c :: rest =>
    if List.isPrefixOf (p :: ps) (c :: rest) then
      rep ++ replaceFromFuel p ps rep fuel (rest.drop ps.length)
    else
      c :: replaceFromFuel p ps rep fuel rest

/-- Python's `line.replace(pat, rep)` on a line modelled as a character
list (the patterns used in the script are all non-empty). -/
def pyReplace (pat rep : String) (l : List Char) : List Char :=
  match pat.data with
  | [] => l
  | p :: ps => replaceFromFuel p ps rep.data l.length l

/-- The chained color substitutions applied to `@keyframes` lines in
src/demo.py, in source order. -/
def substituteColors (line : List Char) : List Char :=
  pyReplace "#5c5cff" "#17afff"
    (pyReplace "#0000ee" "#3d6d97"
      (pyReplace "#ffff00" "#db8c44"
        (pyReplace "#cdcd00" "#db8c44"
          (pyReplace "#00cd00" "#91e364"
            (pyReplace "#00ffff" "#01d0df"
              (pyReplace "#00ff00" "#91e364" line))))))

/-- One iteration of the rewrite loop in src/demo.py: a line starting
with `@keyframes` gets the color substitutions, any other line is
written back unchanged. -/
def processLine (line : List Char) : List Char :=
  if List.isPrefixOf "@keyframes".data line then substituteColors line else line

/-- The whole rewrite of demo.svg: every line processed in order. -/
def rewriteSvg (lines : List (List Char)) : List (List Char) :=
  lines.map processLine

-- Fixture setup (embedded from src/demo.py, lines 16-30) ----------------

/-- A filesystem path as a list of components. -/
abbrev FsPath := List String

/-- A filesystem entry: a path and whether it is a directory. -/
structure FsEntry where
  path : FsPath
  isDir : Bool
  deriving DecidableEq, Repr

/-- A filesystem modelled as a list of entries (set semantics: adding an
existing entry is a no-op). -/
abbrev Fs := List FsEntry

/-- Add an entry unless it already exists. -/
def addEntry (e : FsEntry) (fs : Fs) : Fs :=
  if e ∈ fs then fs else fs ++ [e]

/-- The non-empty prefixes of a path, shortest first. -/
def prefixesOf : FsPath → List FsPath
  | [] => []
  | c :: rest => [c] :: (prefixesOf rest).map (fun q => c :: q)

/-- `os.makedirs`: create the directory and all missing intermediate
directories. -/
def mkdirs (p : FsPath) (fs : Fs) : Fs :=
  ((prefixesOf p).map (fun q => FsEntry.mk q true)).foldl
    (fun acc e => addEntry e acc) fs

/-- `touch`: create an empty file (no-op if present). -/
def touch (p : FsPath) (fs : Fs) : Fs := addEntry ⟨p, false⟩ fs

/-- Whether a path lies in the demo tree (the demo directory itself
included). -/
def underDemo (p : FsPath) : Bool :=
  match p with
  | "demo" :: _ => true
  | _ => false

/-- `rmtree("demo", ignore_errors=True)`: remove the whole demo tree,
silently succeeding when it is absent. -/
def rmtreeDemo (fs : Fs) : Fs := fs.filter (fun e => !underDemo e.path)

/-- The fixture-setup phase of src/demo.py lines 20-30: remove any demo
tree, then recreate the directories and the six empty sample files in
source order. -/
def setupFixture (fs : Fs) : Fs :=
  let g0 := rmtreeDemo fs
  let g1 := mkdirs ["demo", "source", "movie"] g0
  let g2 := touch ["demo", "source", "movie", "Star.Trek.Generations.mkv"] g1
  let g3 := mkdirs ["demo", "source", "show"] g2
  let g4 := touch ["demo", "source", "show", "Sample.mkv"] g3
  let g5 := touch ["demo", "source", "show", "Star.Trek.The.Next.Generation.S01E01.mkv"] g4
  let g6 := touch ["demo", "source", "show", "Star.Trek.The.Next.Generation.S01E02.mkv"] g5
  let g7 := touch ["demo", "source", "show", "Star.Trek.The.Next.Generation.S02E01.mkv"] g6
  let g8 := touch ["demo", "source", "show", "Star.Trek.The.Next.Generation.S02E02.mkv"] g7
  mkdirs ["demo", "target"] g8

/-- The demo tree the setup phase always produces, in creation order. -/
def demoTree : Fs :=
  [⟨["demo"], true⟩,
   ⟨["demo", "source"], true⟩,
   ⟨["demo", "source", "movie"], true⟩,
   ⟨["demo", "source", "movie", "Star.Trek.Generations.mkv"], false⟩,
   ⟨["demo", "source", "show"], true⟩,
   ⟨["demo", "source", "show", "Sample.mkv"], false⟩,
   ⟨["demo", "source", "show", "Star.Trek.The.Next.Generation.S01E01.mkv"], false⟩,
   ⟨["demo", "source", "show", "Star.Trek.The.Next.Generation.S01E02.mkv"], false⟩,
   ⟨["demo", "source", "show", "Star.Trek.The.Next.Generation.S02E01.mkv"], false⟩,
   ⟨["demo", "source", "show", "Star.Trek.The.Next.Generation.S02E02.mkv"], false⟩,
   ⟨["demo", "target"], true⟩]

-- Claim theorems --------------------------------------------------------

/-- C2: `merge(outer, inner)` is total and pure; for each of tapDelay
and endDelay it returns inner's value if set, else outer's value if
set, else unset; and its per-key map is the key-wise union in which
inner's entry wins for any key present in both and every key present in
only one side survives. -/
theorem merge_field_semantics :
    ∀ (outer inner : TimingPolicy),
      (merge outer inner).tapDelay =
        (if inner.tapDelay.isSome then inner.tapDelay else outer.tapDelay) ∧
      (merge outer inner).endDelay =
        (if inner.endDelay.isSome then inner.endDelay else outer.endDelay) ∧
      (∀ k, List.lookup k (merge outer inner).perKeyDelay =
        (if (List.lookup k inner.perKeyDelay).isSome
         then List.lookup k inner.perKeyDelay
         else List.lookup k outer.perKeyDelay)) := by
  intro outer inner
  refine ⟨?_, ?_, ?_⟩
  · cases h : inner.tapDelay <;> simp [merge, Option.orElse, h]
  · cases h : inner.endDelay <;> simp [merge, Option.orElse, h]
  · intro k
    have := lookup_mergePerKey k outer.perKeyDelay inner.perKeyDelay
    cases h : List.lookup k inner.perKeyDelay <;>
      simp [merge, this, Option.orElse, h]

/-- C7: merging a policy with itself returns it unchanged, and merging
outer with an already-merged `merge outer inner` returns
`merge outer inner` unchanged. -/
theorem merge_idem_absorb :
    ∀ (outer inner : TimingPolicy),
      merge outer outer = outer ∧
      merge outer (merge outer inner) = merge outer inner :=
  fun outer inner => ⟨merge_self outer, merge_absorb outer inner⟩

/-- C3: in phase perEvent, resolveDelay returns the perKeyDelay entry
for the symbol when present (whatever tapDelay is), else tapDelay when
set, else zero; in phase end it returns endDelay when set, else zero;
and the traces of Paste and Pause never consult the perEvent phase —
they depend only on the end delay. -/
theorem resolveDelay_semantics :
    (∀ (p : TimingPolicy) (sym : String) (d : Nat),
      List.lookup sym p.perKeyDelay = some d → resolveDelay p sym .perEvent = d) ∧
    (∀ (p : TimingPolicy) (sym : String),
      List.lookup sym p.perKeyDelay = none →
        resolveDelay p sym .perEvent = p.tapDelay.getD 0) ∧
    (∀ (p : TimingPolicy) (sym : String),
      resolveDelay p sym .atEnd = p.endDelay.getD 0) ∧
    (∀ (p q : TimingPolicy) (text : List Char) (d : Nat),
      p.endDelay = q.endDelay →
        actionTrace p (.paste text) = actionTrace q (.paste text) ∧
        actionTrace p (.pause d) = actionTrace q (.pause d)) := by
  refine ⟨?_, ?_, ?_, ?_⟩
  · intro p sym d h
    simp [resolveDelay, h]
  · intro p sym h
    simp [resolveDelay, h]
  · intro p sym
    simp [resolveDelay]
  · intro p q text d h
    constructor <;> simp [actionTrace, resolveDelay, h]

/-- Witness for C3 at concrete inputs: a key present in perKeyDelay
wins over tapDelay, an absent key falls back to tapDelay, and a paste
trace is unchanged when tapDelay and perKeyDelay change but endDelay
stays. -/
theorem resolveDelay_semantics_witness :
    resolveDelay ⟨some 100, none, [(" ", 200)]⟩ " " .perEvent = 200 ∧
    resolveDelay ⟨some 100, none, [(" ", 200)]⟩ "a" .perEvent = 100 ∧
    actionTrace ⟨some 1, some 7, [("x", 3)]⟩ (.paste "hi".data) =
      actionTrace ⟨none, some 7, []⟩ (.paste "hi".data) := by
  refine ⟨?_, ?_, ?_⟩
  · exact resolveDelay_semantics.1 ⟨some 100, none, [(" ", 200)]⟩ " " 200 (by decide)
  · have h := resolveDelay_semantics.2.1 ⟨some 100, none, [(" ", 200)]⟩ "a" (by decide)
    simpa using h
  · exact (resolveDelay_semantics.2.2.2 ⟨some 1, some 7, [("x", 3)]⟩
      ⟨none, some 7, []⟩ "hi".data 0 (by decide)).1

/-- C1: the trace of Write{text} is, for each character in order, one
key dispatch followed by one sleep of the per-event delay resolved for
that character's symbol, and after the last character one sleep of the
end delay; Write "ab" under tapDelay=100 yields dispatch, sleep 100,
dispatch, sleep 100, end-sleep; and under an outer tapDelay=50 scope
with a pushed scope setting end=2000 and a 200 per-key delay for space,
Write "a b" yields per-character delays 50, 200, 50 and a 2000 end
delay. -/
theorem write_trace_spec :
    (∀ (p : TimingPolicy) (text : List Char),
      writeTrace p text =
        (text.flatMap fun c =>
          [Event.key (symOf c), Event.wait (resolveDelay p (symOf c) .perEvent)])
        ++ [Event.wait (resolveDelay p "" .atEnd)]) ∧
    writeTrace ⟨some 100, none, []⟩ "ab".data =
      [.key "a", .wait 100, .key "b", .wait 100, .wait 0] ∧
    writeTrace
      (ScopeStack.current
        (ScopeStack.push ⟨none, some 2000, [(" ", 200)]⟩
          (ScopeStack.push ⟨some 50, none, []⟩ []))) "a b".data =
      [.key "a", .wait 50, .key " ", .wait 200, .key "b", .wait 50, .wait 2000] := by
  refine ⟨?_, by decide, by decide⟩
  intro p text
  induction text with
  | nil => simp [writeTrace]
  | cons c cs ih => simp [writeTrace, ih]

/-- C8: the trace of Paste{text} contains exactly one dispatch call —
a single bulk insert, never one call per character — and its only sleep
is the resolved end delay. -/
theorem paste_single_dispatch :
    ∀ (p : TimingPolicy) (text : List Char),
      (actionTrace p (.paste text)).countP Event.isDispatch = 1 ∧
      waits (actionTrace p (.paste text)) = [resolveDelay p "" .atEnd] ∧
      actionTrace p (.paste text) = [.bulk text, .wait (resolveDelay p "" .atEnd)] :=
  fun _ _ => ⟨rfl, rfl, rfl⟩

theorem popN_pushAll (ps : List TimingPolicy) (s : ScopeStack) :
    ScopeStack.popN ps.length (ScopeStack.pushAll ps s) = s := by
  induction ps generalizing s with
  | nil => rfl
  | cons p rest ih =>
    show ScopeStack.popN (rest.length + 1)
      (ScopeStack.pushAll rest (ScopeStack.push p s)) = s
    rw [ScopeStack.popN, ih (ScopeStack.push p s)]
    rfl

/-- C4: pushing N policies then popping N times restores the stack, and
with it the effective policy, for any N; and scoped acquisition pops
exactly once on every exit path — the stack after `withPolicy` equals
the stack before, and a failing body still leaves the stack restored
while its error propagates. -/
theorem scope_roundtrip :
    (∀ (ps : List TimingPolicy) (s : ScopeStack),
      ScopeStack.popN ps.length (ScopeStack.pushAll ps s) = s ∧
      ScopeStack.current (ScopeStack.popN ps.length (ScopeStack.pushAll ps s)) =
        ScopeStack.current s) ∧
    (∀ (ε α : Type) (p : TimingPolicy) (body : ScopeStack → Except ε α)
        (s : ScopeStack),
      (withPolicy p body s).2 = s) ∧
    (∀ (ε α : Type) (p : TimingPolicy) (body : ScopeStack → Except ε α)
        (s : ScopeStack) (e : ε),
      body (ScopeStack.push p s) = .error e →
        withPolicy p body s = (.error e, s)) := by
  refine ⟨?_, ?_, ?_⟩
  · intro ps s
    exact ⟨popN_pushAll ps s, by rw [popN_pushAll ps s]⟩
  · intro ε α p body s
    rfl
  · intro ε α p body s e he
    show (body (ScopeStack.push p s), ScopeStack.pop (ScopeStack.push p s)) =
      (Except.error e, s)
    rw [he]
    rfl

/-- Witness for C4: a body that fails mid-scope still exits with its
error propagated and the stack exactly as before the push. -/
theorem scope_roundtrip_witness :
    withPolicy TimingPolicy.empty (fun _ => (.error 42 : Except Nat Unit)) [] =
      (.error 42, []) :=
  scope_roundtrip.2.2 Nat Unit TimingPolicy.empty (fun _ => .error 42) [] 42 rfl

/-- C5: the recording session state machine — recordStart from Idle
returns a handle and moves to Recording; recordStart while Recording is
an AlreadyRecordingError; recordStop from Idle is a NotRecordingError;
recordStop from Recording or Stopped succeeds with the same handle and
lands in Stopped, so two stops in a row both succeed with the same
handle. -/
theorem record_state_machine :
    (∀ fresh : Nat, recordStart fresh .idle = .ok (fresh, .recording fresh)) ∧
    (∀ fresh h : Nat, recordStart fresh (.recording h) = .error .alreadyRecording) ∧
    recordStop .idle = .error .notRecording ∧
    (∀ h : Nat, recordStop (.recording h) = .ok (h, .stopped h)) ∧
    (∀ h : Nat, recordStop (.stopped h) = .ok (h, .stopped h)) ∧
    (∀ h : Nat,
      (recordStop (.recording h)).bind (fun r => recordStop r.2) = .ok (h, .stopped h)) :=
  ⟨fun _ => rfl, fun _ _ => rfl, rfl, fun _ => rfl, fun _ => rfl, fun _ => rfl⟩

theorem range_map_shift (i n : Nat) :
    (List.range (n + 1)).map (fun j => i + j) =
      i :: (List.range n).map (fun j => i + 1 + j) := by
  rw [List.range_succ_eq_map, List.map_cons, List.map_map]
  simp only [Nat.add_zero]
  have hm : List.map ((fun j => i + j) ∘ Nat.succ) (List.range n) =
      List.map (fun j => i + 1 + j) (List.range n) := by
    apply List.map_congr_left
    intro j _
    show i + Nat.succ j = i + 1 + j
    omega
  rw [hm]

theorem execQueue_spec (dispatchOk : Nat → Bool) :
    ∀ (q : List Act) (i k : Nat), k < q.length →
      (∀ j, j < k → dispatchOk (i + j) = true) →
      dispatchOk (i + k) = false →
      execQueue dispatchOk q i =
        ((List.range (k + 1)).map (fun j => i + j), some ⟨i + k⟩) := by
  intro q
  induction q with
  | nil =>
    intro i k hk
    simp at hk
  | cons a rest ih =>
    intro i k hk hbefore hfail
    cases k with
    | zero =>
      have h0 : dispatchOk i = false := by simpa using hfail
      simp [execQueue, h0, List.range_succ]
    | succ k' =>
      have h0 : dispatchOk i = true := by
        have := hbefore 0 (Nat.succ_pos k')
        simpa using this
      have hk' : k' < rest.length := by
        simpa [Nat.succ_lt_succ_iff] using hk
      have hbefore' : ∀ j, j < k' → dispatchOk (i + 1 + j) = true := by
        intro j hj
        have := hbefore (j + 1) (by omega)
        have harith : i + (j + 1) = i + 1 + j := by omega
        rwa [harith] at this
      have hfail' : dispatchOk (i + 1 + k') = false := by
        have harith : i + (k' + 1) = i + 1 + k' := by omega
        rwa [harith] at hfail
      have hr := ih (i + 1) k' hk' hbefore' hfail'
      simp only [execQueue, h0, if_true, hr]
      have hidx : (⟨i + 1 + k'⟩ : DispatchError) = ⟨i + (k' + 1)⟩ := by
        congr 1
        omega
      rw [range_map_shift i (k' + 1), hidx]

/-- C6: fail-fast queue execution — if dispatching the k-th action (of
any queue) fails while all earlier dispatches succeed, the dispatched
indices are exactly 0..k (nothing after the k-th is dispatched and
nothing is retried), the DispatchError propagates to the caller of the
entry point, and when a recording handle is active the unwind attempts
recordStop, leaving the recording stopped with its handle. -/
theorem queue_fail_fast :
    ∀ (dispatchOk : Nat → Bool) (q : List Act) (rc : RecState) (k : Nat),
      k < q.length →
      (∀ j, j < k → dispatchOk j = true) →
      dispatchOk k = false →
      (runQueue dispatchOk q rc).1 = List.range (k + 1) ∧
      (runQueue dispatchOk q rc).2.2 = .error ⟨k⟩ ∧
      (∀ h : Nat, rc = .recording h → (runQueue dispatchOk q rc).2.1 = .stopped h) := by
  intro dispatchOk q rc k hk hb hf
  have he := execQueue_spec dispatchOk q 0 k hk
    (fun j hj => by simpa using hb j hj) (by simpa using hf)
  have hmap : (List.range (k + 1)).map (fun j => 0 + j) = List.range (k + 1) := by
    apply List.map_congr_left ?_ |>.trans (List.map_id _)
    intro j _
    simp
  refine ⟨?_, ?_, ?_⟩
  · simp [runQueue, he, hmap]
    cases rc <;> simp [recordStop]
  · simp [runQueue, he]
    cases rc <;> simp [recordStop]
  · intro h hrc
    subst hrc
    simp [runQueue, he, recordStop]

/-- Witness for C6: five queued actions with a simulated dispatch
failure on the third — indices 0, 1, 2 are dispatched, the 4th and 5th
are not, the error propagates, and the active recording (handle 7) is
stopped during unwind. -/
theorem queue_fail_fast_witness :
    (runQueue (fun i => !(i == 2))
      [Act.pause 1, Act.pause 2, Act.pause 3, Act.pause 4, Act.pause 5]
      (.recording 7)).1 = [0, 1, 2] ∧
    (runQueue (fun i => !(i == 2))
      [Act.pause 1, Act.pause 2, Act.pause 3, Act.pause 4, Act.pause 5]
      (.recording 7)).2.2 = .error ⟨2⟩ ∧
    (runQueue (fun i => !(i == 2))
      [Act.pause 1, Act.pause 2, Act.pause 3, Act.pause 4, Act.pause 5]
      (.recording 7)).2.1 = .stopped 7 := by
  have h := queue_fail_fast (fun i => !(i == 2))
    [Act.pause 1, Act.pause 2, Act.pause 3, Act.pause 4, Act.pause 5]
    (.recording 7) 2 (by decide) (by decide) (by decide)
  refine ⟨h.1.trans (by decide), h.2.1, h.2.2 7 rfl⟩

/-- C9: the SVG rewrite preserves the number and order of lines; a line
not starting with "@keyframes" is written back byte-for-byte unchanged,
and a line starting with "@keyframes" is written back with the color
substitutions applied. -/
theorem svg_rewrite_spec :
    ∀ (lines : List (List Char)) (i : Nat),
      (rewriteSvg lines).length = lines.length ∧
      (rewriteSvg lines)[i]? = (lines[i]?).map processLine ∧
      (∀ line, lines[i]? = some line →
        List.isPrefixOf "@keyframes".data line = false →
        (rewriteSvg lines)[i]? = some line) ∧
      (∀ line, lines[i]? = some line →
        List.isPrefixOf "@keyframes".data line = true →
        (rewriteSvg lines)[i]? = some (substituteColors line)) := by
  intro lines i
  refine ⟨List.length_map lines processLine, ?_, ?_, ?_⟩
  · simp [rewriteSvg]
  · intro line hsome hpref
    simp [rewriteSvg, hsome, processLine, hpref]
  · intro line hsome hpref
    simp [rewriteSvg, hsome, processLine, hpref]

/-- Witness for C9 on a concrete two-line file: the `@keyframes` line
gets its colors substituted, the other line is unchanged. -/
theorem svg_rewrite_spec_witness :
    (rewriteSvg ["@keyframes a #00ff00 #5c5cff".data, "rect #00ff00".data])[0]? =
      some "@keyframes a #91e364 #17afff".data ∧
    (rewriteSvg ["@keyframes a #00ff00 #5c5cff".data, "rect #00ff00".data])[1]? =
      some "rect #00ff00".data := by
  constructor
  · have h := (svg_rewrite_spec
      ["@keyframes a #00ff00 #5c5cff".data, "rect #00ff00".data] 0).2.2.2
      "@keyframes a #00ff00 #5c5cff".data (by decide) (by decide)
    rw [h]
    decide
  · exact (svg_rewrite_spec
      ["@keyframes a #00ff00 #5c5cff".data, "rect #00ff00".data] 1).2.2.1
      "rect #00ff00".data (by decide) (by decide)

theorem addEntry_append_of_not_mem (e : FsEntry) (g l : Fs) (hg : e ∉ g) :
    addEntry e (g ++ l) = g ++ addEntry e l := by
  unfold addEntry
  by_cases h : e ∈ l
  · simp [List.mem_append, hg, h]
  · simp [List.mem_append, hg, h, List.append_assoc]

theorem foldl_addEntry_append (es : List FsEntry) (g : Fs)
    (hes : ∀ e ∈ es, underDemo e.path = true)
    (hg : ∀ e ∈ g, underDemo e.path = false) :
    ∀ l : Fs,
      es.foldl (fun acc e => addEntry e acc) (g ++ l) =
        g ++ es.foldl (fun acc e => addEntry e acc) l := by
  induction es with
  | nil => intro l; rfl
  | cons e rest ih =>
    intro l
    have hne : e ∉ g := by
      intro hmem
      have h1 := hg e hmem
      have h2 := hes e (List.mem_cons_self e rest)
      rw [h1] at h2
      cases h2
    rw [List.foldl_cons, List.foldl_cons, addEntry_append_of_not_mem e g l hne]
    exact ih (fun x hx => hes x (List.mem_cons_of_mem e hx)) (addEntry e l)

/-- The addEntry operations the fixture setup performs after clearing
the demo tree, in source order: the expanded makedirs and touch calls
of src/demo.py lines 22-30. -/
def fixtureOps : List FsEntry :=
  [⟨["demo"], true⟩, ⟨["demo", "source"], true⟩, ⟨["demo", "source", "movie"], true⟩,
   ⟨["demo", "source", "movie", "Star.Trek.Generations.mkv"], false⟩,
   ⟨["demo"], true⟩, ⟨["demo", "source"], true⟩, ⟨["demo", "source", "show"], true⟩,
   ⟨["demo", "source", "show", "Sample.mkv"], false⟩,
   ⟨["demo", "source", "show", "Star.Trek.The.Next.Generation.S01E01.mkv"], false⟩,
   ⟨["demo", "source", "show", "Star.Trek.The.Next.Generation.S01E02.mkv"], false⟩,
   ⟨["demo", "source", "show", "Star.Trek.The.Next.Generation.S02E01.mkv"], false⟩,
   ⟨["demo", "source", "show", "Star.Trek.The.Next.Generation.S02E02.mkv"], false⟩,
   ⟨["demo"], true⟩, ⟨["demo", "target"], true⟩]

theorem setupFixture_decomp (fs : Fs) :
    setupFixture fs = rmtreeDemo fs ++ demoTree := by
  have hg : ∀ e ∈ rmtreeDemo fs, underDemo e.path = false := by
    intro e he
    have hm := List.mem_filter.mp he
    simpa using hm.2
  have h := foldl_addEntry_append fixtureOps (rmtreeDemo fs) (by decide) hg []
  rw [List.append_nil] at h
  calc setupFixture fs
      = fixtureOps.foldl (fun acc e => addEntry e acc) (rmtreeDemo fs) := by
        simp only [setupFixture, mkdirs, touch, prefixesOf, fixtureOps, List.map_cons,
          List.map_nil, List.foldl_cons, List.foldl_nil]
    _ = rmtreeDemo fs ++ fixtureOps.foldl (fun acc e => addEntry e acc) [] := h
    _ = rmtreeDemo fs ++ demoTree := by
        rw [show fixtureOps.foldl (fun acc e => addEntry e acc) [] = demoTree from by decide]

/-- C10: the fixture setup is idempotent with respect to prior
filesystem state — from any starting filesystem, including a leftover
demo tree from an earlier run, the resulting demo tree is the same
fixed tree of directories and six empty sample files, entries outside
the demo tree are untouched, and any two starting states yield the same
demo tree. -/
theorem fixture_setup_idempotent :
    ∀ fs : Fs,
      (setupFixture fs).filter (fun e => underDemo e.path) = demoTree ∧
      (setupFixture fs).filter (fun e => !underDemo e.path) = rmtreeDemo fs ∧
      (∀ fs₂ : Fs,
        (setupFixture fs).filter (fun e => underDemo e.path) =
          (setupFixture fs₂).filter (fun e => underDemo e.path)) := by
  have hdemo : ∀ fs : Fs,
      (setupFixture fs).filter (fun e => underDemo e.path) = demoTree := by
    intro fs
    rw [setupFixture_decomp, List.filter_append]
    have h1 : (rmtreeDemo fs).filter (fun e => underDemo e.path) = [] := by
      rw [List.filter_eq_nil_iff]
      intro e he hcon
      have hm := List.mem_filter.mp he
      have : underDemo e.path = false := by simpa using hm.2
      rw [this] at hcon
      cases hcon
    have h2 : demoTree.filter (fun e => underDemo e.path) = demoTree := by decide
    rw [h1, h2, List.nil_append]
  intro fs
  refine ⟨hdemo fs, ?_, fun fs₂ => (hdemo fs).trans (hdemo fs₂).symm⟩
  rw [setupFixture_decomp, List.filter_append]
  have h1 : (rmtreeDemo fs).filter (fun e => !underDemo e.path) = rmtreeDemo fs := by
    rw [List.filter_eq_self]
    intro e he
    exact (List.mem_filter.mp he).2
  have h2 : demoTree.filter (fun e => !underDemo e.path) = [] := by decide
  rw [h1, h2, List.append_nil]
